import Mathlib

/-!
Verification of the CSV loader/parser and aggregation helpers of the
data-visibility page (src/main.js), via a shallow embedding in Lean.

The JavaScript code is modelled as follows:
* a JS object built by successive property assignments is an association
  list with unique keys in first-insertion order (`objSet`);
* `String.prototype.trim`, `split`, `includes`, `replace(/"/g,'')` are
  modelled by executable functions over `List Char`;
* the numeric path `(parseFloat(cell) * 100).toFixed(2)` is modelled over
  exact decimal values: `parseFloatDec` parses finite decimal/exponent
  notation (the grammar `parseFloat` accepts, minus `Infinity`), and
  `toFixed2` rounds to two decimals picking the larger value on ties, as
  `toFixed` does.  A failed parse is represented by the observable string
  result, the one `NaN.toFixed(2)` would print.
-/

namespace DataVis

/-- Whitespace as trimmed by the JS string trim operation
(the common ASCII whitespace plus NBSP and BOM). -/
def isJsWS (c : Char) : Bool :=
  c = ' ' || c = '\t' || c = '\n' || c = '\r' ||
  c = '\x0b' || c = '\x0c' || c = ' ' || c = '﻿'

/-- Drop leading JS whitespace. -/
def ltrim (l : List Char) : List Char :=
  l.dropWhile isJsWS

/-- Drop trailing JS whitespace. -/
def rtrim (l : List Char) : List Char :=
  (ltrim l.reverse).reverse

/-- JS string trim: drop leading and trailing whitespace. -/
def trimChars (l : List Char) : List Char :=
  rtrim (ltrim l)

/-- `s.trim()` on strings. -/
def jsTrimStr (s : String) : String :=
  ⟨trimChars s.data⟩

/-- `s.split(sep)` for a one-character separator: every occurrence splits,
empty segments are kept, and the result is never empty. -/
def splitChar (sep : Char) : List Char → List (List Char)
  | [] => [[]]
  | a :: rest =>
    let r := splitChar sep rest
    if a = sep then [] :: r else (a :: r.headI) :: r.tail

/-- `text.split('\n')` as a list of strings. -/
def splitNl (s : String) : List String :=
  (splitChar '\n' s.data).map List.asString

/-- `line.split(',')` as a list of strings. -/
def splitComma (s : String) : List String :=
  (splitChar ',' s.data).map List.asString

/-- `s.replace(/"/g, '')`: remove every double-quote character. -/
def removeQuotes (s : String) : String :=
  ⟨s.data.filter (fun c => c ≠ '"')⟩

/-- `f.trim().replace(/"/g, '')` applied to one raw field
(src/main.js lines 19 and 23). -/
def cleanField (f : String) : String :=
  removeQuotes (jsTrimStr f)

/-- `line.split(',').map(v => v.trim().replace(/"/g, ''))`. -/
def parseFields (line : String) : List String :=
  (splitComma line).map cleanField

/-- JS object property assignment `acc[k] = v`: replace the value in place
if the key exists, otherwise append the binding. -/
def objSet (acc : List (String × α)) (k : String) (v : α) : List (String × α) :=
  match acc with
  | [] => [(k, v)]
  | (k0, v0) :: rest => if k0 = k then (k, v) :: rest else (k0, v0) :: objSet rest k v

/-- A parsed Row: a JS object mapping column names to cell strings. -/
abbrev Row := List (String × String)

/-- `row[k]` property read. -/
def rowGet (row : Row) (k : String) : Option String :=
  List.lookup k row

/-- `headers.forEach((header, index) => row[header] = values[index])`
(src/main.js lines 25-28), for equally long lists. -/
def mkRow (headers values : List String) : Row :=
  (headers.zip values).foldl (fun acc hv => objSet acc hv.1 hv.2) []

/-- The data loop of `fetchCsvData` (src/main.js lines 22-31): each line is
split and cleaned; lines whose field count equals the header count become
Rows, the others are skipped. -/
def buildRows (headers : List String) : List String → List Row
  | [] => []
  | l :: rest =>
    let values := parseFields l
    if values.length = headers.length then
      mkRow headers values :: buildRows headers rest
    else
      buildRows headers rest

/-- `text.trim().split('\n')` (src/main.js line 15). -/
def csvLines (text : String) : List String :=
  splitNl (jsTrimStr text)

/-- The parsing stage of `fetchCsvData` starting from the line list: header
names come from the line at `headerLineIndex`, data Rows from the lines
after it.  Reading a header line that does not exist throws in JS
(`undefined.split`), modelled as `none`. -/
def parseFromLines (lines : List String) (headerLineIndex : Nat) : Option (List Row) :=
  if headerLineIndex < lines.length then
    some (buildRows (parseFields (lines.getD headerLineIndex "")) (lines.drop (headerLineIndex + 1)))
  else
    none

/-- `fetchCsvData`'s processing of the fetched text (src/main.js lines 14-32). -/
def parseCsvText (text : String) (headerLineIndex : Nat) : Option (List Row) :=
  parseFromLines (csvLines text) headerLineIndex

/-- `haystack.startsWith(needle)` over character lists. -/
def listStartsWith : List Char → List Char → Bool
  | _, [] => true
  | [], _ :: _ => false
  | a :: as, b :: bs => a = b && listStartsWith as bs

/-- `haystack.includes(needle)` over character lists. -/
def listIncl (sub : List Char) : List Char → Bool
  | [] => listStartsWith [] sub
  | a :: rest => listStartsWith (a :: rest) sub || listIncl sub rest

/-- `s.includes(sub)` on strings. -/
def strIncludes (s sub : String) : Bool :=
  listIncl sub.data s.data

/-- `url.includes('summary.csv') ? 2 : 0` (src/main.js line 17). -/
def headerLineIndex (url : String) : Nat :=
  if strIncludes url "summary.csv" then 2 else 0

/-- The full text-processing pipeline of `fetchCsvData` for a given url. -/
def fetchCsvData (url : String) (text : String) : Option (List Row) :=
  parseCsvText text (headerLineIndex url)

/-- The column read by the map chart (src/main.js line 42). -/
def countryKey : String := "国家"

/-- Count stored for a category so far: `acc[country] || 0`. -/
def getCount (acc : List (String × Nat)) (k : String) : Nat :=
  (List.lookup k acc).getD 0

/-- One step of the reduce in `drawMapChart` (src/main.js lines 41-47):
if `row['国家']` is truthy (present and non-empty) increment its count. -/
def countStep (acc : List (String × Nat)) (row : Row) : List (String × Nat) :=
  match rowGet row countryKey with
  | some country => if country = "" then acc else objSet acc country (getCount acc country + 1)
  | none => acc

/-- `data.reduce(..., {})` of `drawMapChart`: category counts. -/
def countryCounts (data : List Row) : List (String × Nat) :=
  data.foldl countStep []

/-- The name rewrite in `drawMapChart` (src/main.js lines 54-57). -/
def mapName (country : String) : String :=
  if strIncludes country "中国" then "China"
  else if strIncludes country "美国" then "United States"
  else if strIncludes country "日本" then "Japan"
  else country

/-- `Object.entries(countryCounts).map(...)` (src/main.js lines 51-61):
rewrite each category name, keep its count. -/
def mapData (counts : List (String × Nat)) : List (String × Nat) :=
  counts.map (fun p => (mapName p.1, p.2))

/-- Digit run to a number. -/
def digitsToNat (l : List Char) : Nat :=
  l.foldl (fun n c => 10 * n + (c.toNat - 48)) 0

/-- The exponent part accepted by `parseFloat` after an `e`/`E`:
optional sign and a digit run; an empty run contributes nothing. -/
def parseExp (l : List Char) : Int :=
  let sr : Int × List Char :=
    match l with
    | '-' :: r => (-1, r)
    | '+' :: r => (1, r)
    | _ => (1, l)
  let ds := (sr.2.takeWhile Char.isDigit)
  if ds.isEmpty then 0 else sr.1 * digitsToNat ds

/-- An exact decimal number `num / 10 ^ exp`, the value denoted by a finite
decimal numeral.  The numeric path of the bar chart is modelled over these
exact values; on the decimal literals the claims are about, the JS
double-precision computation prints the same digits. -/
structure Dec where
  num : Int
  exp : Nat
deriving Repr, DecidableEq

/-- `parseFloat(s)` modelled over exact decimals: skip leading whitespace,
read an optional sign, a decimal mantissa (integer digits, fraction digits
or both) and an optional exponent, from the longest valid prefix.  `none`
models `NaN` (no valid numeric prefix).  The special `Infinity` spelling of
`parseFloat` is not modelled. -/
def parseFloatDec (s : String) : Option Dec :=
  let l := s.data.dropWhile isJsWS
  let sgnRest : Int × List Char :=
    match l with
    | '-' :: r => (-1, r)
    | '+' :: r => (1, r)
    | _ => (1, l)
  let ip := sgnRest.2.takeWhile Char.isDigit
  let l2 := sgnRest.2.dropWhile Char.isDigit
  let fpRest : List Char × List Char :=
    match l2 with
    | '.' :: r => (r.takeWhile Char.isDigit, r.dropWhile Char.isDigit)
    | _ => ([], l2)
  if ip.isEmpty && fpRest.1.isEmpty then none
  else
    let mant : Int := (digitsToNat ip * 10 ^ fpRest.1.length + digitsToNat fpRest.1 : Nat)
    let ex : Int :=
      match fpRest.2 with
      | 'e' :: r => parseExp r
      | 'E' :: r => parseExp r
      | _ => 0
    if 0 ≤ ex then
      some ⟨sgnRest.1 * mant * (10 : Int) ^ ex.toNat, fpRest.1.length⟩
    else
      some ⟨sgnRest.1 * mant, fpRest.1.length + (-ex).toNat⟩

/-- Two-digit zero-padded fraction part. -/
def twoDigits (n : Nat) : String :=
  if n < 10 then "0" ++ toString n else toString n

/-- `x.toFixed(2)`: the integer `m` with `m / 100` closest to the value,
the larger one on ties, printed with two decimals.  For the value
`num / 10 ^ exp` that integer is `⌊(200 * num + 10 ^ exp) / (2 * 10 ^ exp)⌋`. -/
def toFixed2 (d : Dec) : String :=
  let m : Int := Int.fdiv (200 * d.num + 10 ^ d.exp) (2 * 10 ^ d.exp)
  if m < 0 then
    "-" ++ toString (m.natAbs / 100) ++ "." ++ twoDigits (m.natAbs % 100)
  else
    toString (m.toNat / 100) ++ "." ++ twoDigits (m.toNat % 100)

/-- Multiplication by 100 on exact decimals. -/
def decTimes100 (d : Dec) : Dec :=
  ⟨d.num * 100, d.exp⟩

/-- `(parseFloat(cell) * 100).toFixed(2)` (src/main.js line 118), where
`cell` is `row['平均利润率']` and may be absent.  A missing cell or failed
parse yields the string `NaN.toFixed(2)` prints. -/
def scaleFormat (cell : Option String) : String :=
  match cell with
  | none => "NaN"
  | some s =>
    match parseFloatDec s with
    | none => "NaN"
    | some d => toFixed2 (decTimes100 d)

/-- The label column of the bar chart (src/main.js line 116). -/
def industryKey : String := "行业(个人观点)"

/-- The rate column of the bar chart (src/main.js line 118). -/
def rateKey : String := "平均利润率"

/-- `data.map(row => row['行业(个人观点)'])`. -/
def industries (data : List Row) : List (Option String) :=
  data.map (fun row => rowGet row industryKey)

/-- `data.map(row => (parseFloat(row['平均利润率']) * 100).toFixed(2))`. -/
def avgProfitRates (data : List Row) : List String :=
  data.map (fun row => scaleFormat (rowGet row rateKey))

/-- A row whose rate cell is absent or does not parse as a number. -/
def rateUnparsable (row : Row) : Bool :=
  match rowGet row rateKey with
  | none => true
  | some s => (parseFloatDec s).isNone

/-! ### Association-list lemmas for the JS-object model -/

theorem lookup_objSet_self (k : String) (v : α) (acc : List (String × α)) :
    List.lookup k (objSet acc k v) = some v := by
  induction acc with
  | nil => simp [objSet, List.lookup_cons]
  | cons p rest ih =>
    obtain ⟨k0, v0⟩ := p
    by_cases h : k0 = k
    · simp [objSet, h, List.lookup_cons]
    · have hbeq : (k == k0) = false := beq_eq_false_iff_ne.mpr (Ne.symm h)
      simpa [objSet, h, List.lookup_cons, hbeq] using ih

theorem lookup_objSet_ne (h : j ≠ k) (v : α) (acc : List (String × α)) :
    List.lookup j (objSet acc k v) = List.lookup j acc := by
  have hbeq : (j == k) = false := beq_eq_false_iff_ne.mpr h
  induction acc with
  | nil => simp [objSet, List.lookup_cons, hbeq]
  | cons p rest ih =>
    obtain ⟨k0, v0⟩ := p
    by_cases hk : k0 = k
    · subst hk
      simp [objSet, List.lookup_cons, hbeq]
    · by_cases hj : j = k0
      · subst hj
        simp [objSet, hk, List.lookup_cons]
      · have hbeq0 : (j == k0) = false := beq_eq_false_iff_ne.mpr hj
        simp [objSet, hk, List.lookup_cons, hbeq0, ih]

theorem lookup_objSet_isSome (k j : String) (v : α) (acc : List (String × α))
    (h : j = k ∨ (List.lookup j acc).isSome = true) :
    (List.lookup j (objSet acc k v)).isSome = true := by
  by_cases hj : j = k
  · subst hj
    simp [lookup_objSet_self]
  · rw [lookup_objSet_ne hj]
    exact h.resolve_left hj

theorem lookup_foldl_objSet (ps : List (String × String)) :
    ∀ (acc : Row) (j : String),
      j ∈ ps.map Prod.fst ∨ (List.lookup j acc).isSome = true →
      (List.lookup j (ps.foldl (fun a p => objSet a p.1 p.2) acc)).isSome = true := by
  induction ps with
  | nil =>
    intro acc j h
    simpa using h
  | cons p rest ih =>
    intro acc j h
    refine ih (objSet acc p.1 p.2) j ?_
    rcases h with h | h
    · rcases List.mem_map.mp h with ⟨q, hq, hfst⟩
      rcases List.mem_cons.mp hq with hqp | hq'
      · exact Or.inr (lookup_objSet_isSome p.1 j p.2 acc (Or.inl (by rw [← hqp]; exact hfst.symm)))
      · exact Or.inl (List.mem_map.mpr ⟨q, hq', hfst⟩)
    · exact Or.inr (lookup_objSet_isSome p.1 j p.2 acc (Or.inr h))

/-- Every header is a key of the Row built from an equally long value list. -/
theorem mkRow_hasKey (headers values : List String)
    (hlen : headers.length = values.length) (hd : String) (hmem : hd ∈ headers) :
    (rowGet (mkRow headers values) hd).isSome = true := by
  refine lookup_foldl_objSet (headers.zip values) [] hd (Or.inl ?_)
  rw [List.map_fst_zip headers values (le_of_eq hlen)]
  exact hmem

/-! ### Lemmas about the data-line loop -/

theorem parseFields_length (l : String) :
    (parseFields l).length = (splitComma l).length := by
  simp [parseFields]

/-- When every data line has the header's field count, the loop keeps every
line, in order, as the Row zipped from it. -/
theorem buildRows_of_consistent (headers : List String) (ls : List String)
    (h : ∀ l ∈ ls, (parseFields l).length = headers.length) :
    buildRows headers ls = ls.map (fun l => mkRow headers (parseFields l)) := by
  induction ls with
  | nil => simp [buildRows]
  | cons l rest ih =>
    have hl := h l (List.mem_cons_self l rest)
    have hrest := ih fun x hx => h x (List.mem_cons_of_mem l hx)
    simp [buildRows, hl, hrest]

/-- A line whose field count differs from the header's is dropped and leaves
the other lines' Rows untouched. -/
theorem buildRows_drop_mismatch (headers : List String) (pre post : List String)
    (l : String) (h : (parseFields l).length ≠ headers.length) :
    buildRows headers (pre ++ l :: post) = buildRows headers (pre ++ post) := by
  induction pre with
  | nil => simp [buildRows, h]
  | cons p rest ih => simp [buildRows, ih]

/-! ### Trimming lemmas -/

theorem ltrim_cons_ws (c : Char) (hc : isJsWS c = true) (l : List Char) :
    ltrim (c :: l) = ltrim l := by
  simp [ltrim, List.dropWhile, hc]

theorem ltrim_cons_not_ws (c : Char) (hc : isJsWS c = false) (l : List Char) :
    ltrim (c :: l) = c :: l := by
  simp [ltrim, List.dropWhile, hc]

theorem rtrim_append_ws (c : Char) (hc : isJsWS c = true) (l : List Char) :
    rtrim (l ++ [c]) = rtrim l := by
  simp [rtrim, List.reverse_append, ltrim_cons_ws c hc]

theorem trimChars_cons_ws (c : Char) (hc : isJsWS c = true) (l : List Char) :
    trimChars (c :: l) = trimChars l := by
  simp [trimChars, ltrim_cons_ws c hc]

theorem trimChars_append_ws (c : Char) (hc : isJsWS c = true) (l : List Char) :
    trimChars (l ++ [c]) = trimChars l := by
  unfold trimChars
  unfold ltrim
  rw [List.dropWhile_append]
  by_cases h : (l.dropWhile isJsWS).isEmpty = true
  · rw [if_pos h, List.isEmpty_iff.mp h]
    simp [List.dropWhile, hc, rtrim, ltrim]
  · rw [if_neg h]
    exact rtrim_append_ws c hc _

/-! ### Counting lemmas for the map-chart reduce -/

theorem getCount_countStep (acc : List (String × Nat)) (row : Row) (c : String) :
    getCount (countStep acc row) c =
      getCount acc c + (if rowGet row countryKey = some c ∧ c ≠ "" then 1 else 0) := by
  cases hr : rowGet row countryKey with
  | none => simp [countStep, hr]
  | some d =>
    by_cases hd : d = ""
    · subst hd
      have hcond : ¬(some "" = some c ∧ c ≠ "") := by
        rintro ⟨h1, h2⟩
        exact h2 (Option.some.inj h1).symm
      simp [countStep, hr, hcond]
      exact fun h => h.symm
    · by_cases hc : c = d
      · subst hc
        simp [countStep, hr, hd, getCount, lookup_objSet_self]
      · have hne : ¬(some d = some c ∧ c ≠ "") := by
          rintro ⟨h1, _⟩
          exact hc (Option.some.inj h1).symm
        simp [countStep, hr, hd, hne, getCount, lookup_objSet_ne hc]
        exact fun h => absurd h.symm hc

theorem getCount_foldl (rows : List Row) :
    ∀ (acc : List (String × Nat)) (c : String),
      getCount (rows.foldl countStep acc) c =
        getCount acc c +
          rows.countP (fun r => decide (rowGet r countryKey = some c ∧ c ≠ "")) := by
  induction rows with
  | nil =>
    intro acc c
    simp
  | cons r rest ih =>
    intro acc c
    simp only [List.foldl_cons, List.countP_cons]
    rw [ih (countStep acc r) c, getCount_countStep]
    by_cases hcond : rowGet r countryKey = some c ∧ c ≠ ""
    · simp only [hcond, decide_eq_true_eq, if_pos hcond, decide_True]
      omega
    · simp only [if_neg hcond, decide_eq_true_eq, if_neg hcond]
      omega

theorem getCount_countryCounts_empty_key (rows : List Row) :
    getCount (countryCounts rows) "" = 0 := by
  unfold countryCounts
  rw [getCount_foldl]
  simp [getCount]

/-! ## The claims -/

/-- C1.  For CSV text whose data lines all have the header line's
comma-split field count, parsing succeeds and returns exactly the Rows
built, in order, one from each data line (the lines after the header line
of the trimmed text), and every header name is present as a key on every
returned Row. -/
theorem parse_consistent (text : String) (hIdx : Nat)
    (hlt : hIdx < (csvLines text).length)
    (hcons : ∀ l ∈ (csvLines text).drop (hIdx + 1),
      (splitComma l).length = (splitComma ((csvLines text).getD hIdx "")).length) :
    parseCsvText text hIdx =
      some (((csvLines text).drop (hIdx + 1)).map
        (fun l => mkRow (parseFields ((csvLines text).getD hIdx "")) (parseFields l))) ∧
    (((csvLines text).drop (hIdx + 1)).map
        (fun l => mkRow (parseFields ((csvLines text).getD hIdx "")) (parseFields l))).length =
      ((csvLines text).drop (hIdx + 1)).length ∧
    ∀ row ∈ ((csvLines text).drop (hIdx + 1)).map
        (fun l => mkRow (parseFields ((csvLines text).getD hIdx "")) (parseFields l)),
      ∀ hd ∈ parseFields ((csvLines text).getD hIdx ""), (rowGet row hd).isSome = true := by
  refine ⟨?_, by simp, ?_⟩
  · unfold parseCsvText parseFromLines
    rw [if_pos hlt]
    congr 1
    apply buildRows_of_consistent
    intro l hl
    rw [parseFields_length, parseFields_length]
    exact hcons l hl
  · intro row hrow hd hhd
    rcases List.mem_map.mp hrow with ⟨l, hl, rfl⟩
    refine mkRow_hasKey _ _ ?_ hd hhd
    rw [parseFields_length, parseFields_length]
    exact (hcons l hl).symm

/-- Witness for C1 on a concrete two-column file. -/
theorem parse_consistent_witness :
    parseCsvText "a,b\nx,y\nu,v" 0 =
      some [[("a", "x"), ("b", "y")], [("a", "u"), ("b", "v")]] := by
  have h := parse_consistent "a,b\nx,y\nu,v" 0 (by decide) (by decide)
  exact h.1.trans (by decide)

/-- C2.  A data line whose comma-split field count differs from the header
line's contributes no Row: it is dropped without error and the Rows of the
surrounding lines are unchanged. -/
theorem mismatched_line_dropped (headerLine : String) (pre post : List String)
    (l : String) (h : (splitComma l).length ≠ (splitComma headerLine).length) :
    buildRows (parseFields headerLine) (pre ++ l :: post) =
      buildRows (parseFields headerLine) (pre ++ post) := by
  refine buildRows_drop_mismatch _ pre post l ?_
  rw [parseFields_length, parseFields_length]
  exact h

/-- Witness for C2: a three-field line in a two-column file is dropped. -/
theorem mismatched_line_dropped_witness :
    (splitComma "1,2,3").length ≠ (splitComma "a,b").length ∧
    buildRows (parseFields "a,b") (["1,2"] ++ "1,2,3" :: ["3,4"]) =
      buildRows (parseFields "a,b") (["1,2"] ++ ["3,4"]) :=
  ⟨by decide, mismatched_line_dropped "a,b" ["1,2"] ["3,4"] "1,2,3" (by decide)⟩

/-- C3.  The summary.csv path selects header offset 2; with offset 2 the
first two lines are never treated as header or data, the header names come
from the line at index 2 and data Rows are built exactly from the lines at
index 3 and above. -/
theorem header_offset_two_skips_two_lines :
    headerLineIndex "data/summary.csv" = 2 ∧
    (∀ (a b a2 b2 : String) (rest : List String),
      parseFromLines (a :: b :: rest) 2 = parseFromLines (a2 :: b2 :: rest) 2) ∧
    (∀ (a b hd : String) (tl : List String),
      parseFromLines (a :: b :: hd :: tl) 2 = some (buildRows (parseFields hd) tl)) := by
  refine ⟨by decide, ?_, ?_⟩
  · intro a b a2 b2 rest
    cases rest with
    | nil => simp [parseFromLines]
    | cons hd tl => simp [parseFromLines]
  · intro a b hd tl
    simp [parseFromLines]

/-- C4.  Count-by-category is invariant under permutation of the rows: on
any two permuted row sequences the resulting mappings agree on every
category. -/
theorem countryCounts_perm_invariant (rows1 rows2 : List Row)
    (hperm : rows1.Perm rows2) (c : String) :
    getCount (countryCounts rows1) c = getCount (countryCounts rows2) c := by
  unfold countryCounts
  rw [getCount_foldl, getCount_foldl]
  exact congrArg _ (hperm.countP_eq _)

/-- Witness for C4 on a concrete swap. -/
theorem countryCounts_perm_invariant_witness :
    ([[("国家", "中国")], [("国家", "美国")]] : List Row).Perm
      [[("国家", "美国")], [("国家", "中国")]] ∧
    getCount (countryCounts [[("国家", "中国")], [("国家", "美国")]]) "中国" =
      getCount (countryCounts [[("国家", "美国")], [("国家", "中国")]]) "中国" :=
  ⟨by decide, countryCounts_perm_invariant _ _ (by decide) "中国"⟩

/-- C5.  Count-by-category maps each non-empty value of the country column
to the number of rows carrying it; rows where the key is absent or empty
contribute nothing (the empty category never appears); and on the three
example rows the counts are 中国 2, 美国 1. -/
theorem countryCounts_spec :
    (∀ (rows : List Row) (c : String), c ≠ "" →
      getCount (countryCounts rows) c =
        rows.countP (fun r => decide (rowGet r countryKey = some c))) ∧
    (∀ rows : List Row, getCount (countryCounts rows) "" = 0) ∧
    countryCounts [[("国家", "中国")], [("国家", "中国")], [("国家", "美国")]] =
      [("中国", 2), ("美国", 1)] := by
  refine ⟨?_, getCount_countryCounts_empty_key, by decide⟩
  intro rows c hc
  unfold countryCounts
  rw [getCount_foldl]
  simp only [getCount, List.lookup_nil, Option.getD_none, Nat.zero_add]
  exact List.countP_congr fun r _ => by simp [hc]

/-- Witness for C5 at a non-empty category. -/
theorem countryCounts_spec_witness :
    ("中国" : String) ≠ "" ∧
    getCount (countryCounts [[("国家", "中国")], [("国家", "美国")], [("国家", "中国")]]) "中国" =
      List.countP (fun r => decide (rowGet r countryKey = some "中国"))
        [[("国家", "中国")], [("国家", "美国")], [("国家", "中国")]] :=
  ⟨by decide, countryCounts_spec.1 _ "中国" (by decide)⟩

/-- C6.  The label/value extraction on the claim's concrete inputs: a rate
cell "0.055" is scaled to the string "5.50", and the example summary row
yields the label Tech with value "12.00". -/
theorem scale_format_examples :
    scaleFormat (some "0.055") = "5.50" ∧
    industries [[("行业(个人观点)", "Tech"), ("平均利润率", "0.12")]] = [some "Tech"] ∧
    avgProfitRates [[("行业(个人观点)", "Tech"), ("平均利润率", "0.12")]] = ["12.00"] := by
  decide

/-- C7, as stated, is false: the rewrite table is an if/else chain, so a
label containing both 中国 and 美国 is rewritten to "China", not to
"United States" as the claim requires of every label containing 美国. -/
theorem mapName_counterexample :
    strIncludes "中国美国" "美国" = true ∧ mapName "中国美国" ≠ "United States" := by
  decide

/-- C7 amended: the rewrites are tried in order 中国, 美国, 日本, each
applying only when the earlier substrings are absent, and a label matching
none of the substrings is emitted unchanged. -/
theorem mapName_amended (label : String) :
    (strIncludes label "中国" = true → mapName label = "China") ∧
    (strIncludes label "中国" = false → strIncludes label "美国" = true →
      mapName label = "United States") ∧
    (strIncludes label "中国" = false → strIncludes label "美国" = false →
      strIncludes label "日本" = true → mapName label = "Japan") ∧
    (strIncludes label "中国" = false → strIncludes label "美国" = false →
      strIncludes label "日本" = false → mapName label = label) := by
  refine ⟨fun h1 => ?_, fun h1 h2 => ?_, fun h1 h2 h3 => ?_, fun h1 h2 h3 => ?_⟩ <;>
    simp [mapName, h1]
  · simp [h2]
  · simp [h2, h3]
  · simp [h2, h3]

/-- Witness for C7 amended: an unmapped label passes through unchanged. -/
theorem mapName_amended_witness :
    strIncludes "法国" "中国" = false ∧ strIncludes "法国" "美国" = false ∧
    strIncludes "法国" "日本" = false ∧ mapName "法国" = "法国" :=
  ⟨by decide, by decide, by decide,
    (mapName_amended "法国").2.2.2 (by decide) (by decide) (by decide)⟩

/-- C8.  The extraction never fails or skips a row: the output has one
entry per row, and a row whose rate cell is absent or unparsable yields the
NaN string at that row's position. -/
theorem avgProfitRates_nan (rows : List Row) :
    (avgProfitRates rows).length = rows.length ∧
    ∀ (i : Nat) (row : Row), rows[i]? = some row → rateUnparsable row = true →
      (avgProfitRates rows)[i]? = some "NaN" := by
  constructor
  · simp [avgProfitRates]
  · intro i row hget hbad
    unfold avgProfitRates
    rw [List.getElem?_map, hget]
    unfold rateUnparsable at hbad
    cases hr : rowGet row rateKey with
    | none => simp [scaleFormat, hr]
    | some s =>
      rw [hr] at hbad
      simp only [Option.isNone_iff_eq_none] at hbad
      simp [scaleFormat, hr, hbad]

/-- Witness for C8: a row with a non-numeric rate cell yields "NaN". -/
theorem avgProfitRates_nan_witness :
    ([[("平均利润率", "abc")]] : List Row)[0]? = some [("平均利润率", "abc")] ∧
    rateUnparsable [("平均利润率", "abc")] = true ∧
    (avgProfitRates [[("平均利润率", "abc")]])[0]? = some "NaN" :=
  ⟨by decide, by decide,
    (avgProfitRates_nan [[("平均利润率", "abc")]]).2 0 [("平均利润率", "abc")]
      (by decide) (by decide)⟩

/-- C9, as stated, is false: every quote character is deleted, not only the
surrounding ones, and trimming happens before the quotes are removed, so a
quoted field keeps its inner trailing space (the produced field "a " is not
whitespace-trimmed) and an unquoted field loses its interior quote. -/
theorem fields_clean_counterexample :
    parseFields "\"a \",b" = ["a ", "b"] ∧ jsTrimStr "a " ≠ "a " ∧
    parseFields "x\"y" = ["xy"] ∧ ("x\"y" : String) ≠ "xy" := by
  decide

/-- C9 amended: every field the parser produces is the raw comma-segment
first whitespace-trimmed and then with all its quote characters removed; in
particular a quoted field whose content carries no quote yields exactly
that content. -/
theorem fields_clean_amended :
    (∀ line : String,
      parseFields line = (splitComma line).map (fun f => removeQuotes (jsTrimStr f))) ∧
    (∀ s : String, s.data.all (fun c => c ≠ '"') = true →
      cleanField ("\"" ++ s ++ "\"") = s) := by
  constructor
  · intro line
    rfl
  · intro s hs
    have hdata : ("\"" ++ s ++ "\"").data = '"' :: (s.data ++ ['"']) := by
      simp [String.data_append]
    have hrev : ('"' :: (s.data ++ ['"'])).reverse = '"' :: (s.data.reverse ++ ['"']) := by
      simp
    have htrim : trimChars ('"' :: (s.data ++ ['"'])) = '"' :: (s.data ++ ['"']) := by
      unfold trimChars rtrim
      rw [ltrim_cons_not_ws '"' (by decide), hrev, ltrim_cons_not_ws '"' (by decide), ← hrev,
        List.reverse_reverse]
    show removeQuotes (jsTrimStr ("\"" ++ s ++ "\"")) = s
    unfold jsTrimStr
    rw [hdata, htrim]
    unfold removeQuotes
    show String.mk (List.filter _ ('"' :: (s.data ++ ['"']))) = s
    rw [List.filter_cons_of_neg (by decide), List.filter_append,
      List.filter_cons_of_neg (by decide), List.filter_nil, List.append_nil,
      List.filter_eq_self.mpr (List.all_eq_true.mp hs)]

/-- Witness for C9 amended on a quote-free quoted field. -/
theorem fields_clean_amended_witness :
    ("hi ho".data.all (fun c => c ≠ '"') = true) ∧
    cleanField ("\"" ++ "hi ho" ++ "\"") = "hi ho" :=
  ⟨by decide, fields_clean_amended.2 "hi ho" (by decide)⟩

/-- C10.  The fetched text is trimmed as a whole before line splitting: a
leading or trailing whitespace character (in particular a final newline)
never changes the parse, and the header index counts lines of the trimmed
text. -/
theorem parse_trims_whole_text (text : String) (hIdx : Nat) (c : Char)
    (hc : isJsWS c = true) :
    parseCsvText (String.singleton c ++ text) hIdx = parseCsvText text hIdx ∧
    parseCsvText (text ++ String.singleton c) hIdx = parseCsvText text hIdx ∧
    parseCsvText text hIdx = parseFromLines (splitNl (jsTrimStr text)) hIdx := by
  have hdata1 : (String.singleton c ++ text).data = c :: text.data := by
    simp [String.data_append, String.singleton]
  have hdata2 : (text ++ String.singleton c).data = text.data ++ [c] := by
    simp [String.data_append, String.singleton]
  have htrim1 : jsTrimStr (String.singleton c ++ text) = jsTrimStr text := by
    unfold jsTrimStr
    rw [hdata1, trimChars_cons_ws c hc]
  have htrim2 : jsTrimStr (text ++ String.singleton c) = jsTrimStr text := by
    unfold jsTrimStr
    rw [hdata2, trimChars_append_ws c hc]
  refine ⟨?_, ?_, rfl⟩
  · unfold parseCsvText csvLines
    rw [htrim1]
  · unfold parseCsvText csvLines
    rw [htrim2]

/-- Witness for C10 with a trailing and a leading newline. -/
theorem parse_trims_whole_text_witness :
    isJsWS '\n' = true ∧
    parseCsvText (String.singleton '\n' ++ "a,b\nx,y") 0 = parseCsvText "a,b\nx,y" 0 ∧
    parseCsvText ("a,b\nx,y" ++ String.singleton '\n') 0 = parseCsvText "a,b\nx,y" 0 :=
  ⟨by decide, (parse_trims_whole_text "a,b\nx,y" 0 '\n' (by decide)).1,
    (parse_trims_whole_text "a,b\nx,y" 0 '\n' (by decide)).2.1⟩

end DataVis
